import Mathlib

/-!
# Verification of the SSE4a binding (`crates/core_arch/src/x86/sse4a.rs`)

The source exposes four operations over 128-bit registers:

* `_mm_extract_si64` — extract a bit-field from the low 64-bit lane (EXTRQ);
* `_mm_insert_si64` — insert a bit-field into the low 64-bit lane (INSERTQ);
* `_mm_stream_sd` / `_mm_stream_ss` — non-temporal scalar stores
  (MOVNTSD / MOVNTSS).

Each public function is a direct forwarding call to an `extern` native
intrinsic (`extrq`, `insertq`, `movntsd`, `movntss`); those intrinsics are
declared but not defined in the repository, so their semantics are modelled
here from the specification (§3, §4.1–§4.4).

A 128-bit register is modelled as a pair of 64-bit lanes, each lane a natural
number (well-formedness `< 2^64` is carried as an explicit hypothesis where a
theorem needs it).  The bit-reinterpretation casts appearing in the source
(`as_i64x2`, `as_i8x16`, `transmute`) preserve the underlying 128 bits and are
modelled as the identity on lane pairs.
-/

/-- A 128-bit SIMD register value, modelled as two 64-bit integer lanes.
Lane 0 (`lo`) is the low 64 bits, lane 1 (`hi`) the high 64 bits. -/
structure LanePair where
  lo : Nat
  hi : Nat
deriving DecidableEq

/-- A 128-bit single-precision register (`__m128`), modelled as four 32-bit
element slots holding IEEE-754 bit patterns.  `e0` is the low element. -/
structure F32x4 where
  e0 : Nat
  e1 : Nat
  e2 : Nat
  e3 : Nat
deriving DecidableEq

/-- Decode the 6-bit `length` control field from bits `[5:0]` of a control
word; a field value of 0 is reinterpreted as 64 (spec §3). -/
def decodeLength (w : Nat) : Nat :=
  if w % 64 = 0 then 64 else w % 64

/-- Decode the 6-bit `index` control field from bits `[13:8]` of a control
word (spec §3). -/
def decodeIndex (w : Nat) : Nat :=
  (w >>> 8) % 64

/-- Modelled from the spec: the native EXTRQ intrinsic
(`llvm.x86.sse4a.extrq`), declared `extern` in the source but not defined in
the repository.  Per §3/§4.1: the `length` control field is bits `[5:0]` of
the control operand's lane 0 and the `index` field is bits `[13:8]`; a zero
`length` field is reinterpreted as 64; the result's lane 0 holds the
`length`-bit field of `x`'s lane 0 starting at bit `index`, zero-extended to
64 bits.  Lane 1 of the result is unspecified in the spec ("typically zero");
it is modelled as the typical hardware value zero. -/
def extrq (x y : LanePair) : LanePair :=
  { lo := (x.lo >>> decodeIndex y.lo) &&& (2 ^ decodeLength y.lo - 1)
    hi := 0 }

/-- Modelled from the spec: the native INSERTQ intrinsic
(`llvm.x86.sse4a.insertq`), declared `extern` in the source but not defined in
the repository.  Per §3/§4.2: the insert bits are lane 0 of `y`, the `length`
control field is bits `[69:64]` of `y` (bits `[5:0]` of lane 1) and the
`index` field is bits `[77:72]` (bits `[13:8]` of lane 1); a zero `length`
field is reinterpreted as 64; the result's lane 0 is `x`'s lane 0 with the
`length`-bit field at `index` replaced by the low `length` bits of `y`'s
lane 0, all other bits unchanged.  Lane 1 of the result is unspecified in the
spec; it is modelled as zero. -/
def insertq (x y : LanePair) : LanePair :=
  { lo := (x.lo &&& ((2 ^ 64 - 1) ^^^ ((2 ^ decodeLength y.hi - 1) <<< decodeIndex y.hi)))
          ||| ((y.lo % 2 ^ decodeLength y.hi) <<< decodeIndex y.hi)
    hi := 0 }

/-- Modelled from the spec: the native MOVNTSD intrinsic
(`llvm.x86.sse4a.movnt.sd`), declared `extern` in the source but not defined
in the repository.  Per §4.3 it writes the low 64 bits of a 128-bit register
to the given address.  Memory is modelled as a list of 64-bit slots holding
IEEE-754 bit patterns, an address as a slot index. -/
def movntsd (mem : List Nat) (p : Nat) (a : LanePair) : List Nat :=
  mem.set p a.lo

/-- Modelled from the spec: the native MOVNTSS intrinsic
(`llvm.x86.sse4a.movnt.ss`), declared `extern` in the source but not defined
in the repository.  Per §4.4 it writes the low 32 bits of the register to the
given address.  Memory is modelled as a list of 32-bit slots. -/
def movntss (mem : List Nat) (p : Nat) (a : F32x4) : List Nat :=
  mem.set p a.e0

/-- Source `_mm_extract_si64`: `transmute(extrq(x.as_i64x2(), y.as_i8x16()))`.
The casts preserve the 128-bit value, so the binding is the intrinsic
itself. -/
def _mm_extract_si64 (x y : LanePair) : LanePair :=
  extrq x y

/-- Source `_mm_insert_si64`: `transmute(insertq(x.as_i64x2(), y.as_i64x2()))`. -/
def _mm_insert_si64 (x y : LanePair) : LanePair :=
  insertq x y

/-- Source `_mm_stream_sd`: `movntsd(p, a)`. -/
def _mm_stream_sd (mem : List Nat) (p : Nat) (a : LanePair) : List Nat :=
  movntsd mem p a

/-- Source `_mm_stream_ss`: `movntss(p, a)`. -/
def _mm_stream_ss (mem : List Nat) (p : Nat) (a : F32x4) : List Nat :=
  movntss mem p a

/-! ## Helper lemmas on the control-word encoding and on the bit-level core -/

/-- Encoding a length of `1..64` (64 encoded as the zero field) and an index
below 64 into a control word, the decoded length is the encoded one. -/
theorem decodeLength_encode (len idx : Nat) (h0 : 0 < len) (h64 : len ≤ 64) :
    decodeLength (len % 64 + idx <<< 8) = len := by
  have h256 : (2 : Nat) ^ 8 = 256 := rfl
  unfold decodeLength
  rw [Nat.shiftLeft_eq, h256]
  split <;> omega

/-- Encoding a length field and an index below 64 into a control word, the
decoded index is the encoded one. -/
theorem decodeIndex_encode (len idx : Nat) (hidx : idx < 64) :
    decodeIndex (len % 64 + idx <<< 8) = idx := by
  have h256 : (2 : Nat) ^ 8 = 256 := rfl
  unfold decodeIndex
  rw [Nat.shiftLeft_eq, Nat.shiftRight_eq_div_pow, h256]
  omega

/-- Bit-level core of insert-then-extract: reading the field back out of the
merged word recovers the inserted bits. -/
theorem insert_then_extract_bits (a f idx len : Nat) (hf : f < 2 ^ len)
    (hle : idx + len ≤ 64) :
    (((a &&& ((2 ^ 64 - 1) ^^^ ((2 ^ len - 1) <<< idx))) ||| (f <<< idx)) >>> idx)
        &&& (2 ^ len - 1) = f := by
  apply Nat.eq_of_testBit_eq
  intro j
  simp only [Nat.testBit_and, Nat.testBit_or, Nat.testBit_xor, Nat.testBit_shiftLeft,
    Nat.testBit_shiftRight, Nat.testBit_two_pow_sub_one, ge_iff_le, Nat.le_add_right,
    decide_True, Bool.true_and, Nat.add_sub_cancel_left]
  by_cases hj : j < len
  · have h64 : idx + j < 64 := by omega
    simp [hj, h64]
  · have hfj : f.testBit j = false :=
      Nat.testBit_lt_two_pow
        (Nat.lt_of_lt_of_le hf (Nat.pow_le_pow_right (by omega) (by omega)))
    simp [hj, hfj]

/-- Bit-level core of the insert frame property: every bit outside the
inserted field (and inside nothing else) is taken from the destination. -/
theorem insert_untouched_bits (a f idx len p : Nat) (ha : a < 2 ^ 64)
    (hle : idx + len ≤ 64) (hout : p < idx ∨ idx + len ≤ p) :
    ((a &&& ((2 ^ 64 - 1) ^^^ ((2 ^ len - 1) <<< idx))) ||| ((f % 2 ^ len) <<< idx)).testBit p
      = a.testBit p := by
  simp only [Nat.testBit_and, Nat.testBit_or, Nat.testBit_xor, Nat.testBit_shiftLeft,
    Nat.testBit_two_pow_sub_one, Nat.testBit_mod_two_pow, ge_iff_le]
  by_cases h64 : p < 64
  · by_cases hip : idx ≤ p
    · have hfar : ¬ p - idx < len := by omega
      simp [h64, hip, hfar]
    · simp [h64, hip]
  · have hap : a.testBit p = false :=
      Nat.testBit_lt_two_pow
        (Nat.lt_of_lt_of_le ha (Nat.pow_le_pow_right (by omega) (by omega)))
    have hfar : ¬ p - idx < len := by omega
    simp [h64, hap, hfar]

/-! ## Claim theorems -/

/-- C1: inserting the low `length` bits of `fieldBits` into `x`'s lane 0 at
`index` via `_mm_insert_si64` (control fields `length` at bits 69:64 and
`index` at bits 77:72 of the second operand), then extracting with
`_mm_extract_si64` using the same index and length (control fields at bits
5:0 and 13:8 of the control operand's lane 0), yields a result whose lane 0
equals `fieldBits` truncated to `length` bits, for every `index + length ≤ 64`
with `length > 0`. -/
theorem insert_extract_roundtrip (x : LanePair) (fieldBits index length : Nat)
    (hlen : 0 < length) (hvalid : index + length ≤ 64) :
    (_mm_extract_si64
        (_mm_insert_si64 x ⟨fieldBits, length % 64 + index <<< 8⟩)
        ⟨length % 64 + index <<< 8, 0⟩).lo
      = fieldBits % 2 ^ length := by
  have hidx : index < 64 := by omega
  simp only [_mm_extract_si64, _mm_insert_si64, extrq, insertq,
    decodeLength_encode length index hlen (by omega),
    decodeIndex_encode length index hidx]
  exact insert_then_extract_bits x.lo (fieldBits % 2 ^ length) index length
    (Nat.mod_lt _ (Nat.pos_pow_of_pos _ (by omega))) hvalid

/-- C1 witness: the round-trip at the source test's inputs
(`x.lo = 0b1010_1010_1010`, `fieldBits = 0b0110`, `index = 8`,
`length = 4`). -/
theorem insert_extract_roundtrip_witness :
    (_mm_extract_si64
        (_mm_insert_si64 ⟨0b101010101010, 0⟩ ⟨0b0110, 4 % 64 + 8 <<< 8⟩)
        ⟨4 % 64 + 8 <<< 8, 0⟩).lo
      = 0b0110 % 2 ^ 4 :=
  insert_extract_roundtrip ⟨0b101010101010, 0⟩ 0b0110 8 4 (by decide) (by decide)

/-- C7: with source lane 0 equal to `0b0110_0000_0000` and a control operand
whose lane 0 encodes index 8 (bits 13:8) and length 4 (bits 5:0),
`_mm_extract_si64` returns a result whose lane 0 equals `0b0110`.  The inputs
are those of the source test `test_mm_extract_si64`. -/
theorem extract_si64_concrete :
    (_mm_extract_si64 ⟨0b011000000000, 0⟩ ⟨0b00100000000100, 0⟩).lo = 0b0110 := by
  decide

/-- C8: with destination lane 0 equal to `0b1010_1010_1010`, insert bits
`0b0110` in the operand's lane 0 and the operand's lane 1 encoding index 8
(bits 13:8) and length 4 (bits 5:0), `_mm_insert_si64` returns a result whose
lane 0 equals `0b0110_1010_1010`.  The inputs are those of the source test
`test_mm_insert_si64`. -/
theorem insert_si64_concrete :
    (_mm_insert_si64 ⟨0b101010101010, 0⟩ ⟨0b0110, 0b00100000000100⟩).lo
      = 0b011010101010 := by
  decide

/-- C2 counterexample: with both control fields zero the result's lane pair is
not the whole input lane pair — lane 1 is not preserved (it is unspecified per
the spec and zero in the model), so `extract(⟨0, 1⟩, ⟨0, 0⟩) = ⟨0, 0⟩ ≠ ⟨0, 1⟩`. -/
theorem extract_si64_identity_counterexample :
    _mm_extract_si64 ⟨0, 1⟩ ⟨0, 0⟩ ≠ ⟨0, 1⟩ := by
  decide

/-- C2 amended: for every lane pair `x` (lane 0 a 64-bit value) and every
control operand `y` whose control fields encode `index = 0` and `length = 0`,
lane 0 of `_mm_extract_si64 x y` equals lane 0 of `x`; lane 1 of the result is
unspecified, so whole-pair equality does not hold. -/
theorem extract_si64_identity_lane0 (x y : LanePair) (hx : x.lo < 2 ^ 64)
    (hlen : y.lo % 64 = 0) (hidx : decodeIndex y.lo = 0) :
    (_mm_extract_si64 x y).lo = x.lo := by
  simp only [_mm_extract_si64, extrq, decodeLength, hlen, hidx, if_pos,
    Nat.shiftRight_zero, Nat.and_pow_two_sub_one_eq_mod]
  exact Nat.mod_eq_of_lt hx

/-- C2 witness: the amended identity at `x = ⟨5, 7⟩`, `y = ⟨0, 0⟩`. -/
theorem extract_si64_identity_lane0_witness :
    (_mm_extract_si64 ⟨5, 7⟩ ⟨0, 0⟩).lo = 5 :=
  extract_si64_identity_lane0 ⟨5, 7⟩ ⟨0, 0⟩ (by decide) (by decide) (by decide)

/-- C3: for every lane pair `x`, every operand `y` whose control fields
(length at bits 69:64, index at bits 77:72 of `y`'s high lane) satisfy
`index + length ≤ 64` with `length > 0`, lane 0 of `_mm_insert_si64 x y`
agrees with lane 0 of `x` on every bit position outside
`[index, index + length)`. -/
theorem insert_si64_frame (x y : LanePair) (p : Nat) (hx : x.lo < 2 ^ 64)
    (hlen : 0 < y.hi % 64)
    (hvalid : decodeIndex y.hi + y.hi % 64 ≤ 64)
    (hout : p < decodeIndex y.hi ∨ decodeIndex y.hi + y.hi % 64 ≤ p) :
    ((_mm_insert_si64 x y).lo).testBit p = x.lo.testBit p := by
  have hdl : decodeLength y.hi = y.hi % 64 := by
    unfold decodeLength
    split <;> omega
  simp only [_mm_insert_si64, insertq, hdl]
  exact insert_untouched_bits x.lo y.lo (decodeIndex y.hi) (y.hi % 64) p hx hvalid hout

/-- C3 witness: at the source test's insert inputs (`index = 8`, `length = 4`)
bit 2 of the result equals bit 2 of the destination. -/
theorem insert_si64_frame_witness :
    ((_mm_insert_si64 ⟨0b101010101010, 0⟩ ⟨0b0110, 0b00100000000100⟩).lo).testBit 2
      = (0b101010101010 : Nat).testBit 2 :=
  insert_si64_frame ⟨0b101010101010, 0⟩ ⟨0b0110, 0b00100000000100⟩ 2
    (by decide) (by decide) (by decide) (by decide)

/-- C4: for every lane pair `x` and control operand `y` encoding a valid
index and length (`index + length ≤ 64`, `length > 0`), lane 0 of
`_mm_extract_si64 x y` equals the `length`-bit field of `x`'s lane 0 starting
at bit `index`, zero-extended to 64 bits, and in particular is strictly less
than `2 ^ length`. -/
theorem extract_si64_zero_extends (x y : LanePair)
    (hlen : 0 < y.lo % 64) (hvalid : decodeIndex y.lo + y.lo % 64 ≤ 64) :
    (_mm_extract_si64 x y).lo = (x.lo >>> decodeIndex y.lo) % 2 ^ (y.lo % 64)
    ∧ (_mm_extract_si64 x y).lo < 2 ^ (y.lo % 64) := by
  have hdl : decodeLength y.lo = y.lo % 64 := by
    unfold decodeLength
    split <;> omega
  have h : (_mm_extract_si64 x y).lo = (x.lo >>> decodeIndex y.lo) % 2 ^ (y.lo % 64) := by
    simp only [_mm_extract_si64, extrq, hdl, Nat.and_pow_two_sub_one_eq_mod]
  exact ⟨h, h ▸ Nat.mod_lt _ (Nat.pos_pow_of_pos _ (by omega))⟩

/-- C4 witness: zero-extension at the source test's extract inputs. -/
theorem extract_si64_zero_extends_witness :
    (_mm_extract_si64 ⟨0b011000000000, 0⟩ ⟨0b00100000000100, 0⟩).lo
        = ((0b011000000000 : Nat) >>> decodeIndex 0b00100000000100)
            % 2 ^ (0b00100000000100 % 64)
    ∧ (_mm_extract_si64 ⟨0b011000000000, 0⟩ ⟨0b00100000000100, 0⟩).lo
        < 2 ^ (0b00100000000100 % 64) :=
  extract_si64_zero_extends ⟨0b011000000000, 0⟩ ⟨0b00100000000100, 0⟩
    (by decide) (by decide)

/-- C5: each streaming store writes exactly its designated low element to the
given slot and leaves every other slot unchanged; concretely, storing the
register with low element `3.0` into 64-bit memory `[1.0, 2.0]` yields
`[3.0, 2.0]`, and storing the register with low element `5.0` into 32-bit
memory `[1.0, 2.0, 3.0, 4.0]` yields `[5.0, 2.0, 3.0, 4.0]` (slots hold the
IEEE-754 bit patterns of those values; the registers carry the source tests'
values `(3.0, 4.0)` and `(5.0, 6.0, 7.0, 8.0)`). -/
theorem stream_store_exact_slot :
    (∀ (mem : List Nat) (p j : Nat) (a : LanePair), p ≠ j →
        (_mm_stream_sd mem p a)[j]? = mem[j]?)
    ∧ (∀ (mem : List Nat) (p j : Nat) (a : F32x4), p ≠ j →
        (_mm_stream_ss mem p a)[j]? = mem[j]?)
    ∧ _mm_stream_sd [0x3FF0000000000000, 0x4000000000000000] 0
        ⟨0x4008000000000000, 0x4010000000000000⟩
        = [0x4008000000000000, 0x4000000000000000]
    ∧ _mm_stream_ss [0x3F800000, 0x40000000, 0x40400000, 0x40800000] 0
        ⟨0x40A00000, 0x40C00000, 0x40E00000, 0x41000000⟩
        = [0x40A00000, 0x40000000, 0x40400000, 0x40800000] := by
  refine ⟨fun mem p j a h => ?_, fun mem p j a h => ?_, rfl, rfl⟩ <;>
    simp [_mm_stream_sd, _mm_stream_ss, movntsd, movntss, List.getElem?_set_ne h]

/-- C5 witness: the frame part at the 64-bit test memory, reading slot 1 after
storing to slot 0. -/
theorem stream_store_exact_slot_witness :
    (_mm_stream_sd [0x3FF0000000000000, 0x4000000000000000] 0
        ⟨0x4008000000000000, 0x4010000000000000⟩)[1]?
      = some 0x4000000000000000 := by
  rw [stream_store_exact_slot.1 _ 0 1 _ (by decide)]
  rfl

/-- C6: for control operands that agree on the control fields (for
`_mm_extract_si64`: bits 5:0 and 13:8 of lane 0; for `_mm_insert_si64`: all of
lane 0 plus bits 5:0 and 13:8 of lane 1) but may differ on every other bit,
the operation produces results with equal lane 0: all other control-word bits
are ignored. -/
theorem control_bits_ignored :
    (∀ x y1 y2 : LanePair, y1.lo % 64 = y2.lo % 64 →
        decodeIndex y1.lo = decodeIndex y2.lo →
        (_mm_extract_si64 x y1).lo = (_mm_extract_si64 x y2).lo)
    ∧ (∀ x y1 y2 : LanePair, y1.lo = y2.lo → y1.hi % 64 = y2.hi % 64 →
        decodeIndex y1.hi = decodeIndex y2.hi →
        (_mm_insert_si64 x y1).lo = (_mm_insert_si64 x y2).lo) := by
  constructor
  · intro x y1 y2 h1 h2
    simp only [_mm_extract_si64, extrq, decodeLength, h1, h2]
  · intro x y1 y2 h0 h1 h2
    simp only [_mm_insert_si64, insertq, decodeLength, h0, h1, h2]

/-- C6 witness: the test's control word against one with extra garbage in the
ignored bits (bits 6, 7 and 14 of the control lane, and the unused lane). -/
theorem control_bits_ignored_witness :
    (_mm_extract_si64 ⟨0b011000000000, 0⟩ ⟨0b00100000000100, 0⟩).lo
      = (_mm_extract_si64 ⟨0b011000000000, 0⟩ ⟨0b00100011000100 + 1 <<< 14, 77⟩).lo
    ∧ (_mm_insert_si64 ⟨0b101010101010, 0⟩ ⟨0b0110, 0b00100000000100⟩).lo
      = (_mm_insert_si64 ⟨0b101010101010, 0⟩ ⟨0b0110, 0b00100011000100 + 1 <<< 14⟩).lo :=
  ⟨control_bits_ignored.1 ⟨0b011000000000, 0⟩ _ _ (by decide) (by decide),
   control_bits_ignored.2 ⟨0b101010101010, 0⟩ _ _ rfl (by decide) (by decide)⟩

/-- C10: for every lane pair `x` and operand `y` whose control fields both
encode zero (length field reinterpreted as 64, index 0), lane 0 of
`_mm_insert_si64 x y` equals `y`'s lane 0 in its entirety — a full 64-bit
replacement, independent of `x`'s lane 0. -/
theorem insert_si64_full_replace (x y : LanePair) (hy : y.lo < 2 ^ 64)
    (hlen : y.hi % 64 = 0) (hidx : decodeIndex y.hi = 0) :
    (_mm_insert_si64 x y).lo = y.lo := by
  simp only [_mm_insert_si64, insertq, decodeLength, hlen, hidx, if_pos,
    Nat.shiftLeft_zero, Nat.xor_self, Nat.and_zero, Nat.zero_or]
  exact Nat.mod_eq_of_lt hy

/-- C10 witness: full replacement at `x.lo = 0xDEAD`, `y.lo = 123`. -/
theorem insert_si64_full_replace_witness :
    (_mm_insert_si64 ⟨0xDEAD, 0⟩ ⟨123, 0⟩).lo = 123 :=
  insert_si64_full_replace ⟨0xDEAD, 0⟩ ⟨123, 0⟩ (by decide) (by decide) (by decide)

/-- C9: each public function is a bare forwarding call to the corresponding
native intrinsic (EXTRQ, INSERTQ, MOVNTSD, MOVNTSS): its result is exactly the
intrinsic's result on the same operands, with no added computation, checks or
branching. -/
theorem bindings_forward_to_intrinsics :
    (∀ x y : LanePair, _mm_extract_si64 x y = extrq x y)
    ∧ (∀ x y : LanePair, _mm_insert_si64 x y = insertq x y)
    ∧ (∀ (mem : List Nat) (p : Nat) (a : LanePair),
        _mm_stream_sd mem p a = movntsd mem p a)
    ∧ (∀ (mem : List Nat) (p : Nat) (a : F32x4),
        _mm_stream_ss mem p a = movntss mem p a) :=
  ⟨fun _ _ => rfl, fun _ _ => rfl, fun _ _ _ => rfl, fun _ _ _ => rfl⟩
